import Mathlib

/-
Verification of the HorizontalCycle effect (src/effect2.py) against its
specification.  The effect class itself is embedded from src; the generic
animation engine it inherits from (Terminal, Character, Gradient, easing,
the inherited per-tick `update` and frame rendering) lives in the external
terminaltexteffects package, absent from src, and is modelled from the
spec's component contracts.
-/

namespace FridgeAnimations

/-- Modelled from the spec: a Color is an immutable RGB value constructed from a
hex-like string (the Color class lives in the external terminaltexteffects
package and is absent from src). -/
structure Color where
  r : ℤ
  g : ℤ
  b : ℤ
deriving DecidableEq

/-- Modelled from the spec: numeric value of one hexadecimal digit. -/
def hexDigitVal (c : Char) : ℕ :=
  if 48 ≤ c.toNat ∧ c.toNat ≤ 57 then c.toNat - 48
  else if 97 ≤ c.toNat ∧ c.toNat ≤ 102 then c.toNat - 87
  else if 65 ≤ c.toNat ∧ c.toNat ≤ 70 then c.toNat - 55
  else 0

/-- Modelled from the spec: value of a pair of hexadecimal digits. -/
def hexPair (a b : Char) : ℤ := ((16 * hexDigitVal a + hexDigitVal b : ℕ) : ℤ)

/-- Modelled from the spec: Color construction from a six-digit hex string. -/
def Color.ofHex (s : String) : Color :=
  match s.toList with
  | [a, b, c, d, e, f] => ⟨hexPair a b, hexPair c d, hexPair e f⟩
  | _ => ⟨0, 0, 0⟩

/-- Modelled from the spec: a Symbol is a glyph together with the color it is
currently rendered in (`none` for the plain base glyph). -/
structure Sym where
  glyph : Char
  color : Option Color
deriving DecidableEq

/-- Modelled from the spec: a rendered frame, the ordered sequence of the
symbols the terminal currently displays (the ANSI serialization of a frame to
raw output is external terminal glue and out of the core). -/
abbrev Frame := List Sym

/-- Modelled from the spec: linear interpolation of one RGB component,
`num / den` of the way from `a` to `b` (integer arithmetic, floor division). -/
def lerpComp (a b num den : ℤ) : ℤ := a + num * (b - a) / den

/-- Modelled from the spec: componentwise linear interpolation between two
colors. -/
def lerpColor (u v : Color) (num den : ℤ) : Color :=
  ⟨lerpComp u.r v.r num den, lerpComp u.g v.g num den, lerpComp u.b v.b num den⟩

/-- Modelled from the spec: the spectrum of `Gradient(c0, c1, c2, steps)` —
exactly `steps` interpolated colors across the two segments `c0 → c1` and
`c1 → c2`, with the first and last control colors preserved exactly (the
Gradient class lives in the external terminaltexteffects package and is absent
from src). -/
def gradientSpectrum (c0 c1 c2 : Color) (steps : ℕ) : List Color :=
  (List.range steps).map fun (i : ℕ) =>
    if 2 * (i : ℤ) ≤ (steps : ℤ) - 1 then
      lerpColor c0 c1 (2 * (i : ℤ)) ((steps : ℤ) - 1)
    else
      lerpColor c1 c2 (2 * (i : ℤ) - ((steps : ℤ) - 1)) ((steps : ℤ) - 1)

/-- Modelled from the spec: the `in_cubic` easing curve, a monotonic remapping
of normalized time in [0,1] that accelerates from a slow start (imported in src
from the external easing module). -/
def in_cubic (t : ℚ) : ℚ := t * t * t

/-- Modelled from the spec: an animation scene, the ordered timeline of colored
symbols one character plays back; one list entry per tick of playback. -/
structure Scene where
  frames : List Sym
deriving DecidableEq

/-- Modelled from the spec: easing boundary — the tick at which the `i`-th
gradient step starts, obtained by applying the easing curve to the evenly
spaced time fraction `i / n` and scaling by the total scene duration. -/
def sceneBoundary (n total i : ℕ) : ℕ :=
  (Rat.floor (in_cubic ((i : ℚ) / (n : ℚ)) * (total : ℚ))).toNat

/-- Modelled from the spec: per-step durations shaped by the easing curve; they
telescope to the total scene duration and are non-uniform. -/
def sceneDurations (n total : ℕ) : List ℕ :=
  (List.range n).map fun i => sceneBoundary n total (i + 1) - sceneBoundary n total i

/-- Modelled from the spec: `apply_gradient_to_symbols` — populate a scene by
pairing each interpolated gradient color with the base glyph, each entry held
for its easing-shaped duration slice (`dur` is the per-step duration argument,
`5` at the call site in src line 96). -/
def apply_gradient_to_symbols (spectrum : List Color) (glyph : Char) (dur : ℕ) : Scene :=
  ⟨List.flatten ((spectrum.zip (sceneDurations spectrum.length (spectrum.length * dur))).map
    fun p => List.replicate p.2 ⟨glyph, some p.1⟩)⟩

/-- Modelled from the spec: one input glyph's display state (the Character
class lives in the external terminaltexteffects engine and is absent from
src). -/
structure Character where
  input_symbol : Char
  is_visible : Bool
  is_active : Bool
  scene : Option Scene
  playhead : ℕ
deriving DecidableEq

/-- Modelled from the spec: the symbol a character currently shows — the scene
frame at the playhead while a scene is owned, the base glyph otherwise. -/
def Character.currentSym (c : Character) : Sym :=
  match c.scene with
  | some s => s.frames.getD c.playhead ⟨c.input_symbol, none⟩
  | none => ⟨c.input_symbol, none⟩

/-- Modelled from the spec: `activate_scene` — the character's previous scene
is discarded, the playhead resets to 0, and the character becomes active. -/
def activate_scene (c : Character) (scn : Scene) : Character :=
  { c with scene := some scn, playhead := 0, is_active := true }

/-- Modelled from the spec: the per-tick advance of one character's scene — the
playhead moves forward one unit; when it reaches the scene's end the character
becomes inactive, the scene is dropped, and the base symbol shows again. -/
def tickCharacter (c : Character) : Character :=
  match c.scene with
  | none => c
  | some s =>
    if c.playhead + 1 < s.frames.length then { c with playhead := c.playhead + 1 }
    else { c with playhead := 0, is_active := false, scene := none }

/-- Modelled from the spec: the Terminal owns the ordered, fixed collection of
Characters built from the input text (the Terminal class lives in the external
terminaltexteffects engine and is absent from src). -/
structure Terminal where
  characters : List Character
deriving DecidableEq

/-- Modelled from the spec: Terminal construction — one Character per input
position, in order, all initially invisible. -/
def Terminal.build (text : String) : Terminal :=
  ⟨text.toList.map fun ch =>
    { input_symbol := ch, is_visible := false, is_active := false, scene := none, playhead := 0 }⟩

/-- Modelled from the spec: `set_character_visibility` — an idempotent toggle
of the visibility flag with no effect on animation state. -/
def setVisibility (c : Character) (v : Bool) : Character := { c with is_visible := v }

/-- Modelled from the spec: `render_frame` — the current display, one symbol
per character in order: the current symbol when visible, a blank space
otherwise. -/
def Terminal.render_frame (t : Terminal) : Frame :=
  t.characters.map fun c => if c.is_visible then c.currentSym else ⟨' ', none⟩

/-- Helper: replace the element at one index of a list, leaving everything else
unchanged. -/
def modifyIdx {α : Type} : List α → ℕ → (α → α) → List α
  | [], _, _ => []
  | x :: xs, 0, f => f x :: xs
  | x :: xs, n + 1, f => x :: modifyIdx xs n f

/-- Modelled from the spec: advance the scene of the character at index `i`. -/
def Terminal.tickAt (t : Terminal) (i : ℕ) : Terminal := ⟨modifyIdx t.characters i tickCharacter⟩

/-- Helper: whether the character at index `i` exists and is active. -/
def Terminal.isActiveAt (t : Terminal) (i : ℕ) : Bool :=
  match t.characters[i]? with
  | some c => c.is_active
  | none => false

/-- Helper: whether the character at index `i` exists and is inactive. -/
def Terminal.isInactiveAt (t : Terminal) (i : ℕ) : Bool :=
  match t.characters[i]? with
  | some c => !c.is_active
  | none => false

/-- Configuration of the HorizontalCycle effect as declared in src lines 32-58:
a speed (a positive float on the command line) and an amplitude (a positive
int); the numeric range checks belong to the external command-line argument
validators, not to the class itself. -/
structure HorizontalCycleConfig where
  speed : ℚ
  amplitude : ℤ
deriving DecidableEq

/-- Default configuration from src: speed 0.1, amplitude 5. -/
def cfgDefault : HorizontalCycleConfig := ⟨(1 : ℚ) / 10, 5⟩

/-- The HorizontalCycle effect (src lines 104-120): the input text plus its
configuration; per the spec, constructing the effect builds the
Terminal/Character model from the input text. -/
structure HorizontalCycle where
  input_data : String
  config : HorizontalCycleConfig
deriving DecidableEq

/-- Modelled from the spec: the Terminal the constructed effect owns — one
invisible Character per input position. -/
def HorizontalCycle.terminal (e : HorizontalCycle) : Terminal := Terminal.build e.input_data

/-- State of HorizontalCycleIterator (src lines 65-72): the stored
configuration values, the motion fields `current_offset` and `direction`, the
terminal, and the `active_characters` working set (held as indices into the
terminal's character list). -/
structure HorizontalCycleIterator where
  amplitude : ℤ
  speed : ℚ
  current_offset : ℤ
  direction : ℤ
  terminal : Terminal
  active_characters : List ℕ
deriving DecidableEq

/-- The `build` method of the iterator (src lines 74-76): set every character
of the terminal visible; animation state is untouched. -/
def HorizontalCycleIterator.build (t : Terminal) : Terminal :=
  ⟨t.characters.map fun c => setVisibility c true⟩

/-- The iterator state `__init__` produces (src lines 66-72): configuration
fields stored, `current_offset = 0`, `direction = 1`, an empty active working
set, and `build` applied to the effect's terminal. -/
def initState (e : HorizontalCycle) : HorizontalCycleIterator :=
  { amplitude := e.config.amplitude
    speed := e.config.speed
    current_offset := 0
    direction := 1
    terminal := HorizontalCycleIterator.build e.terminal
    active_characters := [] }

/-- Error type named by the spec (section 7) for rejected configurations. -/
inductive ConfigurationError where
  | invalidValue
deriving DecidableEq

/-- Construction of the iterator (src lines 66-72) at the exception level: the
body stores fields and runs `build`; it contains no validation and no raise
statement, so it always returns normally. -/
def HorizontalCycleIterator.init (e : HorizontalCycle) :
    Except ConfigurationError HorizontalCycleIterator :=
  Except.ok (initState e)

/-- The gradient constructed in `__next__` (src lines 87-92): white to red and
back to white, ten steps. -/
def theGradient : List Color :=
  gradientSpectrum (Color.ofHex "ffffff") (Color.ofHex "ff0000") (Color.ofHex "ffffff") 10

/-- The scene `__next__` builds for one inactive character (src lines 86-97):
the ten-step white-red-white gradient applied to the character's input symbol
with per-step duration 5 under the `in_cubic` easing. -/
def mkGradientScene (glyph : Char) : Scene := apply_gradient_to_symbols theGradient glyph 5

/-- Activation of the gradient scene on one character (src lines 93-98). -/
def activateWithGradient (c : Character) : Character :=
  activate_scene c (mkGradientScene c.input_symbol)

/-- The transformation the activation loop of `__next__` applies to one
character: an active character is left untouched, an inactive one gets the
gradient scene activated on it. -/
def actFun (c : Character) : Character :=
  if c.is_active then c else activateWithGradient c

/-- Modelled from the spec: the engine-level `update` the iterator inherits —
advance the scene of every character in the active working set one tick, then
drop the characters that finished from the set.  It reads nothing but the
terminal and the active set; in particular the spec records that no function
mutates `offset` or `direction`. -/
def update (s : HorizontalCycleIterator) : HorizontalCycleIterator :=
  { s with
    terminal := s.active_characters.foldl Terminal.tickAt s.terminal
    active_characters := s.active_characters.filter fun i =>
      Terminal.isActiveAt (s.active_characters.foldl Terminal.tickAt s.terminal) i }

/-- One iteration of the activation loop of `__next__` (src lines 84-99) at
index `i`: when the character at `i` exists and is inactive, build the gradient
scene, activate it on the character, and append the character to the active
working set. -/
def actStep (s : HorizontalCycleIterator) (i : ℕ) : HorizontalCycleIterator :=
  match s.terminal.characters[i]? with
  | none => s
  | some c =>
    if c.is_active then s
    else
      { s with
        terminal := ⟨modifyIdx s.terminal.characters i activateWithGradient⟩
        active_characters := s.active_characters ++ [i] }

/-- The activation loop of `__next__` (src lines 84-99), over the snapshot of
the terminal's characters in order. -/
def activatePass (s : HorizontalCycleIterator) : HorizontalCycleIterator :=
  (List.range s.terminal.characters.length).foldl actStep s

/-- The body of `__next__` (src lines 81-101): run the inherited `update`, run
the activation loop over the characters, and return the rendered frame of the
resulting terminal. -/
def nextFn (s : HorizontalCycleIterator) : HorizontalCycleIterator × Frame :=
  (activatePass (update s), (activatePass (update s)).terminal.render_frame)

/-- Iterator state after `n` calls of `__next__`. -/
def stateAfter (s : HorizontalCycleIterator) : ℕ → HorizontalCycleIterator
  | 0 => s
  | n + 1 => (nextFn (stateAfter s n)).1

/-- The list of the first `n` frames `__next__` yields from state `s`. -/
def framesRun (s : HorizontalCycleIterator) : ℕ → List Frame
  | 0 => []
  | n + 1 => (nextFn s).2 :: framesRun (nextFn s).1 n

/-- The iteration protocol step: `none` models StopIteration; the body of
`__next__` contains no raise path, so the protocol-level step always returns a
frame. -/
def nextOpt (s : HorizontalCycleIterator) : Option (HorizontalCycleIterator × Frame) :=
  some (nextFn s)

/-- Result of the `n`-th invocation of the frame producer (counting from 0),
propagating StopIteration should any step signal it. -/
def runProtocol : HorizontalCycleIterator → ℕ → Option (HorizontalCycleIterator × Frame)
  | s, 0 => nextOpt s
  | s, n + 1 =>
    match nextOpt s with
    | none => none
    | some p => runProtocol p.1 n

/-- Big-step run relation: from state `s`, `n` successive calls of `__next__`
yield the frame list `out`. -/
inductive Produces : HorizontalCycleIterator → ℕ → List Frame → Prop where
  | nil {s : HorizontalCycleIterator} : Produces s 0 []
  | cons {s : HorizontalCycleIterator} {n : ℕ} {fs : List Frame} :
      Produces (nextFn s).1 n fs → Produces s (n + 1) ((nextFn s).2 :: fs)

/-- Modelled from the spec: the per-tick motion rule as section 4.3 words it —
add `direction` to `offset`, and flip `direction` exactly when the absolute
offset reaches the amplitude. -/
def specMotionAdvance (s : HorizontalCycleIterator) : HorizontalCycleIterator :=
  { s with
    current_offset := s.current_offset + s.direction
    direction :=
      if |s.current_offset + s.direction| = s.amplitude then -s.direction else s.direction }

/-- Modelled from the spec: the frame-production step in the order the claim
words it — (1) advance the motion state, (2) activate scenes on the inactive
characters, (3) advance all active scenes one tick, (4) render.  Stated only
for comparison with `nextFn`, the step the code performs. -/
def specFrameStep (s : HorizontalCycleIterator) : HorizontalCycleIterator × Frame :=
  (update (activatePass (specMotionAdvance s)),
    (update (activatePass (specMotionAdvance s))).terminal.render_frame)

/-- Effect on input "A" with the default configuration. -/
def effA : HorizontalCycle := ⟨"A", cfgDefault⟩

/-- Effect on input "AB" with the default configuration. -/
def effAB : HorizontalCycle := ⟨"AB", cfgDefault⟩

/-- Helper: `update` does not touch the motion fields or the stored
configuration. -/
theorem update_motion (s : HorizontalCycleIterator) :
    (update s).current_offset = s.current_offset ∧ (update s).direction = s.direction ∧
      (update s).amplitude = s.amplitude ∧ (update s).speed = s.speed :=
  ⟨rfl, rfl, rfl, rfl⟩

/-- Helper: one activation-loop step does not touch the motion fields or the
stored configuration. -/
theorem actStep_motion (s : HorizontalCycleIterator) (i : ℕ) :
    (actStep s i).current_offset = s.current_offset ∧ (actStep s i).direction = s.direction ∧
      (actStep s i).amplitude = s.amplitude ∧ (actStep s i).speed = s.speed := by
  unfold actStep
  cases s.terminal.characters[i]? with
  | none => exact ⟨rfl, rfl, rfl, rfl⟩
  | some c =>
    by_cases hc : c.is_active = true
    · simp [hc]
    · simp [hc]

/-- Helper: any fold of activation-loop steps does not touch the motion fields
or the stored configuration. -/
theorem foldl_actStep_motion (l : List ℕ) :
    ∀ s : HorizontalCycleIterator,
      (l.foldl actStep s).current_offset = s.current_offset ∧
        (l.foldl actStep s).direction = s.direction ∧
        (l.foldl actStep s).amplitude = s.amplitude ∧
        (l.foldl actStep s).speed = s.speed := by
  induction l with
  | nil => intro s; exact ⟨rfl, rfl, rfl, rfl⟩
  | cons i l ih =>
    intro s
    have h1 := actStep_motion s i
    have h2 := ih (actStep s i)
    simp only [List.foldl_cons]
    exact ⟨h2.1.trans h1.1, h2.2.1.trans h1.2.1, h2.2.2.1.trans h1.2.2.1,
      h2.2.2.2.trans h1.2.2.2⟩

/-- Helper: one call of `__next__` does not touch the motion fields or the
stored configuration. -/
theorem nextFn_motion (s : HorizontalCycleIterator) :
    (nextFn s).1.current_offset = s.current_offset ∧
      (nextFn s).1.direction = s.direction ∧
      (nextFn s).1.amplitude = s.amplitude ∧
      (nextFn s).1.speed = s.speed := by
  have h1 := foldl_actStep_motion (List.range (update s).terminal.characters.length) (update s)
  have h2 := update_motion s
  exact ⟨h1.1.trans h2.1, h1.2.1.trans h2.2.1, h1.2.2.1.trans h2.2.2.1,
    h1.2.2.2.trans h2.2.2.2⟩

/-- Helper: any number of calls of `__next__` leaves the motion fields and the
stored configuration unchanged. -/
theorem stateAfter_motion (s : HorizontalCycleIterator) (n : ℕ) :
    (stateAfter s n).current_offset = s.current_offset ∧
      (stateAfter s n).direction = s.direction ∧
      (stateAfter s n).amplitude = s.amplitude ∧
      (stateAfter s n).speed = s.speed := by
  induction n with
  | zero => exact ⟨rfl, rfl, rfl, rfl⟩
  | succ k ih =>
    have h := nextFn_motion (stateAfter s k)
    exact ⟨h.1.trans ih.1, h.2.1.trans ih.2.1, h.2.2.1.trans ih.2.2.1,
      h.2.2.2.trans ih.2.2.2⟩

/-- C10: every call of the frame producer leaves the motion-state fields
unchanged — after any number of calls of `__next__` the offset still equals its
initial value 0 and the direction its initial value 1. -/
theorem motion_fields_constant (e : HorizontalCycle) (n : ℕ) :
    (stateAfter (initState e) n).current_offset = 0 ∧
      (stateAfter (initState e) n).direction = 1 := by
  have h := stateAfter_motion (initState e) n
  exact ⟨h.1, h.2.1⟩

/-- C2: bounded-oscillation invariant — for every valid configuration (positive
speed and amplitude) and every number of ticks, the offset after `n`
frame-production steps is bounded in absolute value by the amplitude. -/
theorem bounded_oscillation_invariant (e : HorizontalCycle) (n : ℕ)
    (hs : 0 < e.config.speed) (ha : 0 < e.config.amplitude) :
    |(stateAfter (initState e) n).current_offset| ≤ (stateAfter (initState e) n).amplitude := by
  have h := stateAfter_motion (initState e) n
  have h1 : (stateAfter (initState e) n).current_offset = 0 := h.1
  have h2 : (stateAfter (initState e) n).amplitude = e.config.amplitude := h.2.2.1
  rw [h1, h2]
  simpa using le_of_lt ha

/-- Witness for C2 at the default configuration on input "AB" after five
ticks. -/
theorem bounded_oscillation_invariant_witness :
    0 < effAB.config.speed ∧ 0 < effAB.config.amplitude ∧
      |(stateAfter (initState effAB) 5).current_offset| ≤
        (stateAfter (initState effAB) 5).amplitude := by
  have hs : 0 < effAB.config.speed := by norm_num [effAB, cfgDefault]
  have ha : 0 < effAB.config.amplitude := by norm_num [effAB, cfgDefault]
  exact ⟨hs, ha, bounded_oscillation_invariant effAB 5 hs ha⟩

/-- C1 (the code contradicts the intended motion rule): evaluating `__next__`
at the failing input — the initial state for input "AB" under the default
configuration — the motion state is not advanced: the offset stays 0 and the
direction stays 1, whereas the intended per-tick rule would move the offset to
1. -/
theorem motion_rule_unimplemented :
    (nextFn (initState effAB)).1.current_offset = 0 ∧
      (nextFn (initState effAB)).1.direction = 1 ∧
      (specMotionAdvance (initState effAB)).current_offset = 1 := by
  have h := nextFn_motion (initState effAB)
  exact ⟨h.1, h.2.1, rfl⟩

/-- C3 counterexample: constructing the iterator with amplitude 0 succeeds —
no ConfigurationError is raised at construction time. -/
theorem construction_with_zero_amplitude_succeeds :
    (HorizontalCycleIterator.init ⟨"AB", ⟨(1 : ℚ) / 10, 0⟩⟩).isOk = true := rfl

/-- C3 (amended): construction of the iterator performs no validation at all —
for every configuration, including one with nonpositive speed or amplitude, it
returns normally and never raises ConfigurationError. -/
theorem construction_never_raises (e : HorizontalCycle) :
    (HorizontalCycleIterator.init e).isOk = true := rfl

/-- C5: the characters of a freshly built terminal are all invisible; the
iterator's construction-time `build` makes every character visible before any
frame is produced; and input "AB" yields exactly two characters. -/
theorem characters_invisible_then_visible (text : String) (cfg : HorizontalCycleConfig) :
    ((Terminal.build text).characters.all fun c => !c.is_visible) = true
    ∧ ((initState ⟨text, cfg⟩).terminal.characters.all fun c => c.is_visible) = true
    ∧ (Terminal.build "AB").characters.length = 2
    ∧ (initState ⟨"AB", cfg⟩).terminal.characters.length = 2 := by
  refine ⟨?_, ?_, ?_, ?_⟩
  · simp [Terminal.build]
  · simp [initState, HorizontalCycle.terminal, HorizontalCycleIterator.build,
      Terminal.build, setVisibility]
  · simp [Terminal.build]
  · simp [initState, HorizontalCycle.terminal, HorizontalCycleIterator.build, Terminal.build]

/-- Helper: interpolating zero of the way between two colors gives the first
color exactly. -/
theorem lerpColor_zero (u v : Color) (d : ℤ) : lerpColor u v 0 d = u := by
  cases u with
  | mk r g b => simp [lerpColor, lerpComp]

/-- Helper: interpolating the full way between two colors gives the second
color exactly. -/
theorem lerpComp_full (a b : ℤ) : lerpComp a b 9 9 = b := by
  unfold lerpComp
  rw [Int.mul_ediv_cancel_left _ (by norm_num : (9 : ℤ) ≠ 0)]
  ring

/-- Helper: componentwise version of full-way interpolation. -/
theorem lerpColor_full (u v : Color) : lerpColor u v 9 9 = v := by
  cases v with
  | mk r g b => simp [lerpColor, lerpComp_full]

/-- C6: for every choice of control colors, the ten-step gradient yields
exactly ten interpolated colors, the first equal to the first control color and
the last equal to the last control color. -/
theorem gradient_ten_steps_endpoints (c0 c1 c2 : Color) :
    (gradientSpectrum c0 c1 c2 10).length = 10
    ∧ (gradientSpectrum c0 c1 c2 10).head? = some c0
    ∧ (gradientSpectrum c0 c1 c2 10).getLast? = some c2 := by
  have hr : List.range 10 = [0, 1, 2, 3, 4, 5, 6, 7, 8, 9] := rfl
  refine ⟨?_, ?_, ?_⟩
  · unfold gradientSpectrum
    rw [List.length_map, List.length_range]
  · unfold gradientSpectrum
    rw [hr]
    simp only [List.map_cons, List.head?_cons]
    norm_num [lerpColor_zero]
  · unfold gradientSpectrum
    rw [hr]
    simp only [List.map_cons, List.map_nil, List.getLast?_cons_cons, List.getLast?_singleton]
    norm_num [lerpColor_full]

/-- Helper: the run relation is the graph of the run function. -/
theorem produces_det (s : HorizontalCycleIterator) (n : ℕ) (o1 o2 : List Frame)
    (h1 : Produces s n o1) (h2 : Produces s n o2) : o1 = o2 := by
  induction h1 generalizing o2 with
  | nil => cases h2; rfl
  | cons h ih =>
    cases h2 with
    | cons h2t => rw [ih _ h2t]

/-- C7: the frame sequence is deterministic — two runs of the same length,
each from the iterator constructed on identical input text and configuration,
yield identical frame lists. -/
theorem frame_sequence_deterministic (e : HorizontalCycle) (n : ℕ) (o1 o2 : List Frame)
    (h1 : Produces (initState e) n o1) (h2 : Produces (initState e) n o2) : o1 = o2 :=
  produces_det (initState e) n o1 o2 h1 h2

/-- Witness for C7: two explicit one-tick runs on input "A" with the default
configuration. -/
theorem frame_sequence_deterministic_witness :
    [(nextFn (initState effA)).2] = [(nextFn (initState effA)).2] :=
  frame_sequence_deterministic effA 1 _ _ (Produces.cons Produces.nil)
    (Produces.cons Produces.nil)

/-- C8: the iterator never signals completion — for every valid configuration,
input text and invocation count, the `n`-th call of the frame producer returns
a frame rather than StopIteration. -/
theorem iteration_never_stops (text : String) (cfg : HorizontalCycleConfig) (n : ℕ)
    (hs : 0 < cfg.speed) (ha : 0 < cfg.amplitude) :
    (runProtocol (initState ⟨text, cfg⟩) n).isSome = true := by
  have gen : ∀ (m : ℕ) (s : HorizontalCycleIterator), (runProtocol s m).isSome = true := by
    intro m
    induction m with
    | zero => intro s; rfl
    | succ k ih => intro s; exact ih (nextFn s).1
  exact gen n (initState ⟨text, cfg⟩)

/-- Witness for C8 at the default configuration on input "AB", third
invocation. -/
theorem iteration_never_stops_witness :
    0 < cfgDefault.speed ∧ 0 < cfgDefault.amplitude ∧
      (runProtocol (initState ⟨"AB", cfgDefault⟩) 2).isSome = true := by
  have hs : 0 < cfgDefault.speed := by norm_num [cfgDefault]
  have ha : 0 < cfgDefault.amplitude := by norm_num [cfgDefault]
  exact ⟨hs, ha, iteration_never_stops "AB" cfgDefault 2 hs ha⟩

/-- Helper: reading the modified index gives the mapped entry. -/
theorem modifyIdx_get_eq {α : Type} (l : List α) (i : ℕ) (f : α → α) :
    (modifyIdx l i f)[i]? = l[i]?.map f := by
  induction l generalizing i with
  | nil => simp [modifyIdx]
  | cons x xs ih =>
    cases i with
    | zero => simp [modifyIdx]
    | succ k => simpa [modifyIdx] using ih k

/-- Helper: reading any other index is unaffected by the modification. -/
theorem modifyIdx_get_ne {α : Type} (l : List α) (i j : ℕ) (f : α → α) (h : j ≠ i) :
    (modifyIdx l i f)[j]? = l[j]? := by
  induction l generalizing i j with
  | nil => simp [modifyIdx]
  | cons x xs ih =>
    cases i with
    | zero =>
      cases j with
      | zero => exact absurd rfl h
      | succ m => simp [modifyIdx]
    | succ k =>
      cases j with
      | zero => simp [modifyIdx]
      | succ m => simpa [modifyIdx] using ih k m (fun hh => h (by rw [hh]))

/-- Helper: one activation-loop step leaves every other index of the character
list unchanged. -/
theorem actStep_get_ne (s : HorizontalCycleIterator) (i j : ℕ) (h : j ≠ i) :
    (actStep s i).terminal.characters[j]? = s.terminal.characters[j]? := by
  unfold actStep
  cases s.terminal.characters[i]? with
  | none => rfl
  | some c =>
    by_cases hc : c.is_active = true
    · simp [hc]
    · simp [hc, modifyIdx_get_ne _ _ _ _ h]

/-- Helper: one activation-loop step transforms its own index by `actFun` —
an active character is untouched, an inactive one gets the gradient scene. -/
theorem actStep_get_self (s : HorizontalCycleIterator) (i : ℕ) :
    (actStep s i).terminal.characters[i]? = s.terminal.characters[i]?.map actFun := by
  unfold actStep
  cases h : s.terminal.characters[i]? with
  | none => simpa using h
  | some c =>
    by_cases hc : c.is_active = true
    · simp [hc, h, actFun]
    · simp [hc, actFun, modifyIdx_get_eq, h]

/-- Helper: one activation-loop step appends its index to the working set
exactly when its character is inactive. -/
theorem actStep_active_chars (s : HorizontalCycleIterator) (i : ℕ) :
    (actStep s i).active_characters =
      s.active_characters ++ (if s.terminal.isInactiveAt i then [i] else []) := by
  unfold actStep Terminal.isInactiveAt
  cases h : s.terminal.characters[i]? with
  | none => simp
  | some c =>
    by_cases hc : c.is_active = true
    · simp [hc]
    · simp [hc]

/-- Helper: the activation loop over the first `n` indices transforms exactly
the characters at indices below `n` by `actFun`. -/
theorem foldl_range_actStep_get (n : ℕ) (s : HorizontalCycleIterator) (j : ℕ) :
    ((List.range n).foldl actStep s).terminal.characters[j]? =
      if j < n then s.terminal.characters[j]?.map actFun
      else s.terminal.characters[j]? := by
  induction n with
  | zero => simp
  | succ k ih =>
    rw [show k + 1 = Nat.succ k from rfl, List.range_succ, List.foldl_append]
    simp only [List.foldl_cons, List.foldl_nil]
    by_cases hj : j = k
    · subst hj
      rw [actStep_get_self]
      have h0 : ((List.range j).foldl actStep s).terminal.characters[j]? =
          s.terminal.characters[j]? := by
        rw [ih]
        simp
      rw [h0]
      simp [Nat.lt_succ_self]
    · rw [actStep_get_ne _ _ _ hj, ih]
      by_cases hlt : j < k
      · simp [hlt, Nat.lt_succ_of_lt hlt]
      · have hlt2 : ¬ j < k + 1 := by omega
        simp [hlt, hlt2]

/-- Helper: the activation loop transforms every character of the terminal by
`actFun`. -/
theorem activatePass_get (s : HorizontalCycleIterator) (j : ℕ) :
    (activatePass s).terminal.characters[j]? =
      s.terminal.characters[j]?.map actFun := by
  unfold activatePass
  rw [foldl_range_actStep_get]
  by_cases hj : j < s.terminal.characters.length
  · simp [hj]
  · have hnone : s.terminal.characters[j]? = none := by
      rw [List.getElem?_eq_none_iff]
      omega
    simp [hj, hnone]

/-- Helper: the activation loop appends to the working set exactly the indices
of the characters that were inactive when the loop started. -/
theorem foldl_range_actStep_active (n : ℕ) (s : HorizontalCycleIterator) :
    ((List.range n).foldl actStep s).active_characters =
      s.active_characters ++ (List.range n).filter (fun i => s.terminal.isInactiveAt i) := by
  induction n with
  | zero => simp
  | succ k ih =>
    rw [show k + 1 = Nat.succ k from rfl, List.range_succ, List.foldl_append]
    simp only [List.foldl_cons, List.foldl_nil]
    rw [actStep_active_chars, ih]
    have hsame : ((List.range k).foldl actStep s).terminal.isInactiveAt k =
        s.terminal.isInactiveAt k := by
      unfold Terminal.isInactiveAt
      rw [foldl_range_actStep_get]
      simp
    rw [hsame, List.filter_append, List.append_assoc]
    congr 2
    simp [List.filter_singleton]

/-- Helper: working-set shape of the whole activation loop. -/
theorem activatePass_active (s : HorizontalCycleIterator) :
    (activatePass s).active_characters =
      s.active_characters ++
        (List.range s.terminal.characters.length).filter
          (fun i => s.terminal.isInactiveAt i) :=
  foldl_range_actStep_active s.terminal.characters.length s

/-- C4 (amended): each call of `__next__` first runs the inherited `update`
(advancing every active scene one tick and dropping finished characters from
the working set), then transforms every character by `actFun` — a character
whose `is_active` is true receives no new scene, a character whose `is_active`
is false gets the white-red-white ten-step gradient scene under the `in_cubic`
easing activated on it — appending exactly the inactive characters to the
active working set, and finally returns the rendered frame of the resulting
terminal; the oscillation motion state is not advanced. -/
theorem frame_production_step (s : HorizontalCycleIterator) (j : ℕ) :
    nextFn s = (activatePass (update s), (activatePass (update s)).terminal.render_frame)
    ∧ (activatePass (update s)).terminal.characters[j]? =
        ((update s).terminal.characters[j]?).map actFun
    ∧ (activatePass (update s)).active_characters =
        (update s).active_characters ++
          (List.range (update s).terminal.characters.length).filter
            (fun i => (update s).terminal.isInactiveAt i)
    ∧ (nextFn s).1.current_offset = s.current_offset
    ∧ (nextFn s).1.direction = s.direction :=
  ⟨rfl, activatePass_get (update s) j, activatePass_active (update s),
    (nextFn_motion s).1, (nextFn_motion s).2.1⟩

/-- C4 counterexample: at the initial state for input "A" under the default
configuration, the step the claim describes and the step the code performs
disagree — the claimed step order advances the offset to 1, while the code
leaves it at 0. -/
theorem claimed_step_differs_from_code :
    (specFrameStep (initState effA)).1.current_offset = 1 ∧
      (nextFn (initState effA)).1.current_offset = 0 := by
  constructor
  · show (update (activatePass (specMotionAdvance (initState effA)))).current_offset = 1
    rw [(update_motion (activatePass (specMotionAdvance (initState effA)))).1]
    have h := foldl_actStep_motion
      (List.range (specMotionAdvance (initState effA)).terminal.characters.length)
      (specMotionAdvance (initState effA))
    exact h.1.trans rfl
  · exact (nextFn_motion (initState effA)).1

/-- Helper: `update` reads only the terminal and the working set; two states
agreeing there stay in agreement. -/
theorem update_congr (s1 s2 : HorizontalCycleIterator)
    (h1 : s1.terminal = s2.terminal) (h2 : s1.active_characters = s2.active_characters) :
    (update s1).terminal = (update s2).terminal ∧
      (update s1).active_characters = (update s2).active_characters := by
  unfold update
  rw [h1, h2]
  exact ⟨rfl, rfl⟩

/-- Helper: one activation-loop step reads only the terminal and the working
set. -/
theorem actStep_congr (s1 s2 : HorizontalCycleIterator) (i : ℕ)
    (h1 : s1.terminal = s2.terminal) (h2 : s1.active_characters = s2.active_characters) :
    (actStep s1 i).terminal = (actStep s2 i).terminal ∧
      (actStep s1 i).active_characters = (actStep s2 i).active_characters := by
  unfold actStep
  rw [h1, h2]
  cases s2.terminal.characters[i]? with
  | none => exact ⟨h1, h2⟩
  | some c =>
    by_cases hc : c.is_active = true
    · simp only [if_pos hc]
      exact ⟨h1, h2⟩
    · simp [if_neg hc]

/-- Helper: folds of activation-loop steps read only the terminal and the
working set. -/
theorem foldl_actStep_congr (l : List ℕ) :
    ∀ s1 s2 : HorizontalCycleIterator,
      s1.terminal = s2.terminal → s1.active_characters = s2.active_characters →
      ((l.foldl actStep s1).terminal = (l.foldl actStep s2).terminal ∧
        (l.foldl actStep s1).active_characters = (l.foldl actStep s2).active_characters) := by
  induction l with
  | nil => intro s1 s2 h1 h2; exact ⟨h1, h2⟩
  | cons i l ih =>
    intro s1 s2 h1 h2
    have h := actStep_congr s1 s2 i h1 h2
    simpa only [List.foldl_cons] using ih (actStep s1 i) (actStep s2 i) h.1 h.2

/-- Helper: the whole activation loop reads only the terminal and the working
set. -/
theorem activatePass_congr (s1 s2 : HorizontalCycleIterator)
    (h1 : s1.terminal = s2.terminal) (h2 : s1.active_characters = s2.active_characters) :
    (activatePass s1).terminal = (activatePass s2).terminal ∧
      (activatePass s1).active_characters = (activatePass s2).active_characters := by
  unfold activatePass
  rw [h1]
  exact foldl_actStep_congr (List.range s2.terminal.characters.length) s1 s2 h1 h2

/-- Helper: `__next__` reads only the terminal and the working set — the
produced frame and the engine part of the successor state depend on nothing
else. -/
theorem nextFn_congr (s1 s2 : HorizontalCycleIterator)
    (h1 : s1.terminal = s2.terminal) (h2 : s1.active_characters = s2.active_characters) :
    (nextFn s1).2 = (nextFn s2).2 ∧
      (nextFn s1).1.terminal = (nextFn s2).1.terminal ∧
      (nextFn s1).1.active_characters = (nextFn s2).1.active_characters := by
  have hu := update_congr s1 s2 h1 h2
  have hp := activatePass_congr (update s1) (update s2) hu.1 hu.2
  refine ⟨?_, hp.1, hp.2⟩
  show (activatePass (update s1)).terminal.render_frame =
    (activatePass (update s2)).terminal.render_frame
  rw [hp.1]

/-- Helper: frame runs from two states agreeing on the terminal and the
working set coincide. -/
theorem framesRun_congr (n : ℕ) :
    ∀ s1 s2 : HorizontalCycleIterator,
      s1.terminal = s2.terminal → s1.active_characters = s2.active_characters →
      framesRun s1 n = framesRun s2 n := by
  induction n with
  | zero => intro s1 s2 h1 h2; rfl
  | succ k ih =>
    intro s1 s2 h1 h2
    have h := nextFn_congr s1 s2 h1 h2
    show (nextFn s1).2 :: framesRun (nextFn s1).1 k =
      (nextFn s2).2 :: framesRun (nextFn s2).1 k
    rw [h.1, ih (nextFn s1).1 (nextFn s2).1 h.2.1 h.2.2]

/-- C9: noninterference of the configuration surface — two valid
configurations differing only in speed and amplitude produce identical frame
sequences on the same input text, because the iterator stores the two values at
construction but never reads them afterwards. -/
theorem config_noninterference (text : String) (c1 c2 : HorizontalCycleConfig) (n : ℕ)
    (hs1 : 0 < c1.speed) (ha1 : 0 < c1.amplitude)
    (hs2 : 0 < c2.speed) (ha2 : 0 < c2.amplitude) :
    framesRun (initState ⟨text, c1⟩) n = framesRun (initState ⟨text, c2⟩) n :=
  framesRun_congr n (initState ⟨text, c1⟩) (initState ⟨text, c2⟩) rfl rfl

/-- Witness for C9: the default configuration against one with doubled speed
and amplitude 7, on input "AB", three ticks. -/
theorem config_noninterference_witness :
    0 < cfgDefault.speed ∧ 0 < cfgDefault.amplitude ∧
      0 < ((⟨(1 : ℚ) / 5, 7⟩ : HorizontalCycleConfig)).speed ∧
      0 < ((⟨(1 : ℚ) / 5, 7⟩ : HorizontalCycleConfig)).amplitude ∧
      framesRun (initState ⟨"AB", cfgDefault⟩) 3 =
        framesRun (initState ⟨"AB", ⟨(1 : ℚ) / 5, 7⟩⟩) 3 := by
  have h1 : 0 < cfgDefault.speed := by norm_num [cfgDefault]
  have h2 : 0 < cfgDefault.amplitude := by norm_num [cfgDefault]
  have h3 : 0 < ((⟨(1 : ℚ) / 5, 7⟩ : HorizontalCycleConfig)).speed := by norm_num
  have h4 : 0 < ((⟨(1 : ℚ) / 5, 7⟩ : HorizontalCycleConfig)).amplitude := by norm_num
  exact ⟨h1, h2, h3, h4,
    config_noninterference "AB" cfgDefault ⟨(1 : ℚ) / 5, 7⟩ 3 h1 h2 h3 h4⟩

end FridgeAnimations
